import Mathlib

/-!
Verification of the admin router of the Gokhale-Ready backend
(`app/routes/admins.py`), as a shallow embedding in Lean 4.

Modelling conventions:
* Monetary amounts and all Python/SQL numeric values are modelled as `ℚ`
  (the code's `float(...)` coercions are the identity in this model).
* Timestamps (`Order.created_at`, `datetime.utcnow()`) are integers counting
  seconds since the epoch; `timedelta(days = n)` is `n * 86400`.
* Nullable database columns are `Option` types; SQL aggregate semantics
  (`SUM` skipping NULLs and returning NULL on an all-NULL group,
  `COUNT(DISTINCT x)` skipping NULLs, `COALESCE`) are modelled explicitly.
* A database state is a list of rows in storage order; `query(...).first()`
  is `List.find?`, in-place ORM mutation of the found row is replacement of
  the first matching row.
* Handlers that can raise `HTTPException` return
  `Except ApiError result × newDatabase`, so that the database left behind
  by a failing call is part of the model.
-/

/-- Errors surfaced by the handlers (`HTTPException` in the source). -/
inductive ApiError where
  | notFound (detail : String)
  | internal (detail : String)
deriving DecidableEq, Repr

/-- The `Product` ORM row, with the columns the router reads and writes:
identifier, display name, category, description, image reference, four
parallel (price, packing) slots, shelf life, lead time and the enabled flag.
Column nullability follows the spec's data model (§3): only the identifier,
the display name and the enabled flag are mandatory. -/
structure Product where
  id : ℤ
  item_name : String
  category : Option String
  description : Option String
  imagesrc : Option String
  price_01 : Option ℚ
  price_02 : Option ℚ
  price_03 : Option ℚ
  price_04 : Option ℚ
  packing_01 : Option String
  packing_02 : Option String
  packing_03 : Option String
  packing_04 : Option String
  shelf_life_days : Option ℤ
  lead_time_days : Option ℤ
  is_enabled : Bool
deriving DecidableEq, Repr

/-- Python truthiness of a nullable numeric value (`if price:`):
`None` and `0` are falsy. -/
def truthyNum : Option ℚ → Bool
  | none => false
  | some q => q != 0

/-- Python `x or ""` for a nullable string. -/
def orEmpty : Option String → String
  | none => ""
  | some s => s

/-- A derived variant: `{"packing": ..., "price": ...}`. -/
structure Variant where
  packing : String
  price : ℚ
deriving DecidableEq, Repr

/-- The four (price, packing) slots of a product in slot order,
as scanned by `for i in range(1, 5)`. -/
def slots (p : Product) : List (Option ℚ × Option String) :=
  [(p.price_01, p.packing_01), (p.price_02, p.packing_02),
   (p.price_03, p.packing_03), (p.price_04, p.packing_04)]

/-- The variant list built by `get_all_products_with_status`: slots whose
price is truthy contribute `{"packing": packing or "", "price": float(price)}`. -/
def deriveVariants (p : Product) : List Variant :=
  (slots p).foldl
    (fun acc s =>
      if truthyNum s.1 then acc ++ [⟨orEmpty s.2, s.1.getD 0⟩] else acc) []

/-- Python `max(it, default = 0)` over a list of rationals. -/
def pyMax : List ℚ → ℚ
  | [] => 0
  | x :: xs => xs.foldl max x

/-- One element of the `/products-state` response. -/
structure ProductView where
  id : ℤ
  item_name : String
  category : Option String
  description : Option String
  image_url : Option String
  variants : List Variant
  max_price : ℚ
  shelf_life_days : Option ℤ
  lead_time_days : Option ℤ
  is_enabled : Bool
deriving DecidableEq, Repr

/-- The loop body of `get_all_products_with_status`: the response object
built for one product. -/
def productView (p : Product) : ProductView :=
  let variants := deriveVariants p
  { id := p.id
    item_name := p.item_name
    category := p.category
    description := p.description
    image_url := p.imagesrc
    variants := variants
    max_price := pyMax (variants.map (·.price))
    shelf_life_days := p.shelf_life_days
    lead_time_days := p.lead_time_days
    is_enabled := p.is_enabled }

/-- The `/products-state` handler `get_all_products_with_status`. -/
def get_all_products_with_status (db : List Product) : List ProductView :=
  db.map productView

/-- One line item of an order, as a JSON object. A field is `none` when the
corresponding key is absent from the object (`dict.get` then returns the
default). -/
structure Item where
  name : Option String
  quantity : Option ℤ
  price : Option ℚ
deriving DecidableEq, Repr

/-- The stored `Order.items` column: SQL `NULL`, a JSON string (represented
by the item list it parses to; `json.loads` on such a string yields that
list), or an already structured list. -/
inductive ItemsField where
  | jnull
  | text (l : List Item)
  | structured (l : List Item)
deriving DecidableEq, Repr

/-- The `Order` ORM row with the columns the dashboard handlers read. -/
structure Order where
  id : ℤ
  created_at : ℤ
  total_amount : Option ℚ
  mobile_number : Option String
  items : ItemsField
deriving DecidableEq, Repr

/-- One entry of the running `product_map` and of the top-products response:
`{"name": ..., "sales": ..., "revenue": ...}`. -/
structure TPEntry where
  name : String
  sales : ℤ
  revenue : ℚ
deriving DecidableEq, Repr

/-- Python truthiness of the item's `name` (`if not name: continue`):
a missing key and the empty string are falsy. -/
def truthyName : Option String → Bool
  | none => false
  | some s => s != ""

/-- The `product_map.setdefault` + in-place `+=` update for one item with a
truthy name: if an entry with this name exists it is updated, otherwise a
fresh zero entry is created and updated, i.e. appended with the deltas. -/
def addItem (m : List TPEntry) (n : String) (q : ℤ) (pr : ℚ) : List TPEntry :=
  if m.any (fun e => e.name == n) then
    m.map (fun e =>
      if e.name == n then
        { e with sales := e.sales + q, revenue := e.revenue + q * pr }
      else e)
  else m ++ [⟨n, q, q * pr⟩]

/-- The body of the inner `for item in items:` loop of `top_products`. -/
def processItem (m : List TPEntry) (it : Item) : List TPEntry :=
  if truthyName it.name then
    addItem m (it.name.getD "") (it.quantity.getD 0) (it.price.getD 0)
  else m

/-- The body of the outer `for (items,) in orders:` loop: a `NULL` items
column is falsy and skipped, a JSON string is always truthy (a string
parsing to a list is nonempty) and parsed, a structured empty list is falsy
and skipped. -/
def processOrder (m : List TPEntry) (o : ItemsField) : List TPEntry :=
  match o with
  | .jnull => m
  | .text l => l.foldl processItem m
  | .structured l => if l = [] then m else l.foldl processItem m

/-- The accumulated `product_map`, in insertion order. -/
def productMap (orders : List ItemsField) : List TPEntry :=
  orders.foldl processOrder []

/-- Stable insertion of an entry into a list sorted by descending `sales`:
the entry goes in front of the first strictly smaller key, after equal keys. -/
def insertDesc (x : TPEntry) : List TPEntry → List TPEntry
  | [] => [x]
  | y :: ys => if y.sales ≤ x.sales then x :: y :: ys else y :: insertDesc x ys

/-- Stable sort by descending `sales`, the semantics of Python's
`sorted(..., key = lambda x: x["sales"], reverse = True)`. -/
def sortDesc : List TPEntry → List TPEntry
  | [] => []
  | x :: xs => insertDesc x (sortDesc xs)

/-- The `/dashboard/top-products` handler `top_products`, applied to the
`items` column of every order: accumulate, sort by descending sales, keep
the first five. -/
def top_products (orders : List ItemsField) : List TPEntry :=
  (sortDesc (productMap orders)).take 5

/-- The items the handler iterates over for one order (after the falsiness
skip and the parse). -/
def itemsOf : ItemsField → List Item
  | .jnull => []
  | .text l => l
  | .structured l => l

/-- Total quantity accumulated for name `n` by one item. -/
def itemSales (n : String) (it : Item) : ℤ :=
  if truthyName it.name && it.name.getD "" == n then it.quantity.getD 0 else 0

/-- Revenue accumulated for name `n` by one item. -/
def itemRev (n : String) (it : Item) : ℚ :=
  if truthyName it.name && it.name.getD "" == n then
    (it.quantity.getD 0 : ℚ) * it.price.getD 0
  else 0

/-- Total quantity sold under name `n` across all orders (no date filter). -/
def totalSales (orders : List ItemsField) (n : String) : ℤ :=
  (orders.map (fun o => ((itemsOf o).map (itemSales n)).sum)).sum

/-- Total revenue under name `n` across all orders (no date filter). -/
def totalRev (orders : List ItemsField) (n : String) : ℚ :=
  (orders.map (fun o => ((itemsOf o).map (itemRev n)).sum)).sum

/-- SQL `SUM` over a nullable column: NULL values are skipped and the sum of
an all-NULL (or empty) collection is NULL. -/
def sqlSum (l : List (Option ℚ)) : Option ℚ :=
  if (l.filterMap id).isEmpty then none else some (l.filterMap id).sum

/-- SQL `COALESCE(x, 0)` / Python `x or 0` on a nullable number (a present
zero stays zero either way). -/
def orZero : Option ℚ → ℚ
  | none => 0
  | some q => q

/-- The cutoff computed by `dashboard_summary`:
`{"weekly": now - 7d, "yearly": now - 365d}.get(period, now - 30d)`. -/
def periodCutoff (period : String) (now : ℤ) : ℤ :=
  if period = "weekly" then now - 7 * 86400
  else if period = "yearly" then now - 365 * 86400
  else now - 30 * 86400

/-- The `/dashboard/summary` response. -/
structure Summary where
  total_revenue : ℚ
  total_orders : ℕ
  total_customers : ℕ
deriving DecidableEq, Repr

/-- The `/dashboard/summary` handler `dashboard_summary`: over the orders
with `created_at >= start_date`, the coalesced sum of `total_amount`, the
row count, and the count of distinct non-NULL mobile numbers. -/
def dashboard_summary (period : String) (now : ℤ) (db : List Order) :
    Summary :=
  let matching := db.filter (fun o => periodCutoff period now ≤ o.created_at)
  { total_revenue := orZero (sqlSum (matching.map (·.total_amount)))
    total_orders := matching.length
    total_customers := ((matching.filterMap (·.mobile_number)).dedup).length }

/-- A grouping label of `/dashboard/revenue`: a calendar date
(`func.date`), a calendar year (`func.year`), or a year-month
(`date_format "%Y-%m"`). -/
inductive RLabel where
  | date (y m d : ℤ)
  | year (y : ℤ)
  | ym (y m : ℤ)
deriving DecidableEq, Repr

/-- Proleptic-Gregorian civil date from a count of days since 1970-01-01
(the standard era-based conversion used by civil calendars). -/
def civilFromDays (z0 : ℤ) : ℤ × ℤ × ℤ :=
  let z := z0 + 719468
  let era := Int.fdiv z 146097
  let doe := z - era * 146097
  let yoe := (doe - doe / 1460 + doe / 36524 - doe / 146096) / 365
  let y := yoe + era * 400
  let doy := doe - (365 * yoe + yoe / 4 - yoe / 100)
  let mp := (5 * doy + 2) / 153
  let d := doy - (153 * mp + 2) / 5 + 1
  let m := mp + (if mp < 10 then 3 else -9)
  (y + (if m ≤ 2 then 1 else 0), m, d)

/-- The civil date of a timestamp (seconds since the epoch). -/
def civilOf (t : ℤ) : ℤ × ℤ × ℤ :=
  civilFromDays (Int.fdiv t 86400)

/-- The label `dashboard_revenue` derives from a creation timestamp:
calendar date when `period` is `"weekly"`, calendar year when `"yearly"`,
year-month otherwise. -/
def labelOf (period : String) (t : ℤ) : RLabel :=
  let c := civilOf t
  if period = "weekly" then .date c.1 c.2.1 c.2.2
  else if period = "yearly" then .year c.1
  else .ym c.1 c.2.1

/-- The SQL ordering on labels (dates, years and year-month strings each
compare componentwise in their natural order; a single query only ever
compares labels of one shape). -/
def rlabelLe : RLabel → RLabel → Bool
  | .date y m d, .date y2 m2 d2 =>
      y < y2 || (y == y2 && (m < m2 || (m == m2 && d ≤ d2)))
  | .year y, .year y2 => y ≤ y2
  | .ym y m, .ym y2 m2 => y < y2 || (y == y2 && m ≤ m2)
  | .date _ _ _, _ => true
  | _, .date _ _ _ => false
  | .year _, _ => true
  | _, .year _ => false

/-- Insertion into a list sorted ascending by `rlabelLe`. -/
def insertAsc (x : RLabel) : List RLabel → List RLabel
  | [] => [x]
  | y :: ys => if rlabelLe x y then x :: y :: ys else y :: insertAsc x ys

/-- Ascending sort of the distinct group labels (`ORDER BY name`). -/
def sortAsc : List RLabel → List RLabel
  | [] => []
  | x :: xs => insertAsc x (sortAsc xs)

/-- Two-digit rendering of a month or day component. -/
def pad2 (n : ℤ) : String :=
  if n < 10 then "0" ++ toString n else toString n

/-- The `str(r[0])` rendering of a label: dates as `YYYY-MM-DD`, years as
the bare integer, year-months as `YYYY-MM`. -/
def rlabelStr : RLabel → String
  | .date y m d => toString y ++ "-" ++ pad2 m ++ "-" ++ pad2 d
  | .year y => toString y
  | .ym y m => toString y ++ "-" ++ pad2 m

/-- One element of the `/dashboard/revenue` response. -/
structure RevPoint where
  name : String
  revenue : ℚ
deriving DecidableEq, Repr

/-- The distinct group labels of the revenue query, in ascending order
(the effect of `GROUP BY name ORDER BY name`). -/
def revLabels (period : String) (db : List Order) : List RLabel :=
  sortAsc ((db.map (fun o => labelOf period o.created_at)).dedup)

/-- The `/dashboard/revenue` handler `dashboard_revenue`: group all orders
(no date filter) by the period label of `created_at`, sum `total_amount`
per group (`float(r[1] or 0)`), order ascending by label. -/
def dashboard_revenue (period : String) (db : List Order) : List RevPoint :=
  (revLabels period db).map (fun l =>
    { name := rlabelStr l
      revenue := orZero (sqlSum
        ((db.filter (fun o => labelOf period o.created_at = l)).map
          (·.total_amount))) })

/-- Replace the first row whose id matches, modelling `query(...).first()`
followed by in-place ORM mutation and commit. -/
def updateFirst (pid : ℤ) (f : Product → Product) : List Product → List Product
  | [] => []
  | p :: ps => if p.id = pid then f p :: ps else p :: updateFirst pid f ps

/-- Remove the first row whose id matches (`db.delete(product)`). -/
def removeFirst (pid : ℤ) : List Product → List Product
  | [] => []
  | p :: ps => if p.id = pid then ps else p :: removeFirst pid ps

/-- The `PATCH /products/{id}/toggle` response. -/
structure ToggleResult where
  product_id : ℤ
  new_status : Bool
deriving DecidableEq, Repr

/-- The toggle handler `toggle_product_status`: 404 when no product has the
id, otherwise flip `is_enabled` on the first matching row and return the id
with the new flag value. -/
def toggle_product_status (product_id : ℤ) (db : List Product) :
    Except ApiError ToggleResult × List Product :=
  match db.find? (fun p => p.id == product_id) with
  | none => (.error (.notFound "Product not found"), db)
  | some p =>
      (.ok { product_id := p.id, new_status := !p.is_enabled },
       updateFirst product_id (fun q => { q with is_enabled := !q.is_enabled }) db)

/-- The bulk toggle handler `toggle_all_products`: set every product's
`is_enabled` to `action == "1"` and report the number of rows loaded.
The route only accepts `action` in `{"0", "1"}` (a `Literal` parameter). -/
def toggle_all_products (action : String) (db : List Product) :
    ℕ × List Product :=
  let is_enable := action = "1"
  (db.length, db.map (fun p => { p with is_enabled := is_enable }))

/-- Modelled from the spec: the `ProductsCreate` creation payload schema
(`app/schemas/product.py` is not part of this repository slice). Per §3 and
§4.7 it carries every product column except the identifier and the enabled
flag, which the handler supplies. -/
structure ProductsCreate where
  item_name : String
  category : Option String
  description : Option String
  imagesrc : Option String
  price_01 : Option ℚ
  price_02 : Option ℚ
  price_03 : Option ℚ
  price_04 : Option ℚ
  packing_01 : Option String
  packing_02 : Option String
  packing_03 : Option String
  packing_04 : Option String
  shelf_life_days : Option ℤ
  lead_time_days : Option ℤ
deriving DecidableEq, Repr

/-- `Product(**product.model_dump(), is_enabled=True)` with the identifier
the store assigns on insert. -/
def mkProduct (pc : ProductsCreate) (newId : ℤ) : Product :=
  { id := newId
    item_name := pc.item_name
    category := pc.category
    description := pc.description
    imagesrc := pc.imagesrc
    price_01 := pc.price_01
    price_02 := pc.price_02
    price_03 := pc.price_03
    price_04 := pc.price_04
    packing_01 := pc.packing_01
    packing_02 := pc.packing_02
    packing_03 := pc.packing_03
    packing_04 := pc.packing_04
    shelf_life_days := pc.shelf_life_days
    lead_time_days := pc.lead_time_days
    is_enabled := true }

/-- The creation handler `add_product`. The outcome of the persistence
attempt (`db.add`/`db.commit`) is external and modelled by the `persistOk`
oracle: on success the new enabled product is appended and its id returned,
on any failure the transaction is rolled back (database unchanged) and an
opaque 500 is raised. -/
def add_product (pc : ProductsCreate) (newId : ℤ) (persistOk : Bool)
    (db : List Product) : Except ApiError ℤ × List Product :=
  if persistOk then (.ok newId, db ++ [mkProduct pc newId])
  else (.error (.internal "Failed to add product"), db)

/-- A JSON value arriving in the `update_product` request body. -/
inductive Value where
  | vnull
  | vstr (s : String)
  | vint (n : ℤ)
  | vnum (q : ℚ)
  | vbool (b : Bool)
deriving DecidableEq, Repr

/-- The product attributes, i.e. the keys for which `hasattr(product, k)`
holds on a `Product` row. -/
inductive FieldKey where
  | id | item_name | category | description | imagesrc
  | price_01 | price_02 | price_03 | price_04
  | packing_01 | packing_02 | packing_03 | packing_04
  | shelf_life_days | lead_time_days | is_enabled
deriving DecidableEq, Repr

/-- The attribute name of each product field. -/
def fieldName : FieldKey → String
  | .id => "id"
  | .item_name => "item_name"
  | .category => "category"
  | .description => "description"
  | .imagesrc => "imagesrc"
  | .price_01 => "price_01"
  | .price_02 => "price_02"
  | .price_03 => "price_03"
  | .price_04 => "price_04"
  | .packing_01 => "packing_01"
  | .packing_02 => "packing_02"
  | .packing_03 => "packing_03"
  | .packing_04 => "packing_04"
  | .shelf_life_days => "shelf_life_days"
  | .lead_time_days => "lead_time_days"
  | .is_enabled => "is_enabled"

/-- All product attributes. -/
def allFieldKeys : List FieldKey :=
  [.id, .item_name, .category, .description, .imagesrc,
   .price_01, .price_02, .price_03, .price_04,
   .packing_01, .packing_02, .packing_03, .packing_04,
   .shelf_life_days, .lead_time_days, .is_enabled]

/-- Resolve an attribute name to a product field, `none` for an unknown
key. -/
def keyOf (k : String) : Option FieldKey :=
  allFieldKeys.find? (fun f => fieldName f == k)

/-- Read a product field as a JSON value (`getattr`). -/
def getF (p : Product) : FieldKey → Value
  | .id => .vint p.id
  | .item_name => .vstr p.item_name
  | .category => (p.category.map .vstr).getD .vnull
  | .description => (p.description.map .vstr).getD .vnull
  | .imagesrc => (p.imagesrc.map .vstr).getD .vnull
  | .price_01 => (p.price_01.map .vnum).getD .vnull
  | .price_02 => (p.price_02.map .vnum).getD .vnull
  | .price_03 => (p.price_03.map .vnum).getD .vnull
  | .price_04 => (p.price_04.map .vnum).getD .vnull
  | .packing_01 => (p.packing_01.map .vstr).getD .vnull
  | .packing_02 => (p.packing_02.map .vstr).getD .vnull
  | .packing_03 => (p.packing_03.map .vstr).getD .vnull
  | .packing_04 => (p.packing_04.map .vstr).getD .vnull
  | .shelf_life_days => (p.shelf_life_days.map .vint).getD .vnull
  | .lead_time_days => (p.lead_time_days.map .vint).getD .vnull
  | .is_enabled => .vbool p.is_enabled

/-- Coerce a patch value into a string column, keeping the stored value on a
type mismatch (the source performs no validation; ill-typed assignments are
outside this model). -/
def asStr (v : Value) (old : String) : String :=
  match v with
  | .vstr s => s
  | _ => old

/-- Coerce a patch value into an integer column. -/
def asInt (v : Value) (old : ℤ) : ℤ :=
  match v with
  | .vint n => n
  | _ => old

/-- Coerce a patch value into a boolean column. -/
def asBool (v : Value) (old : Bool) : Bool :=
  match v with
  | .vbool b => b
  | _ => old

/-- Coerce a patch value into a nullable string column. -/
def asOptStr (v : Value) (old : Option String) : Option String :=
  match v with
  | .vnull => none
  | .vstr s => some s
  | _ => old

/-- Coerce a patch value into a nullable numeric column (JSON integers are
valid numeric values). -/
def asOptNum (v : Value) (old : Option ℚ) : Option ℚ :=
  match v with
  | .vnull => none
  | .vnum q => some q
  | .vint n => some (n : ℚ)
  | _ => old

/-- Coerce a patch value into a nullable integer column. -/
def asOptInt (v : Value) (old : Option ℤ) : Option ℤ :=
  match v with
  | .vnull => none
  | .vint n => some n
  | _ => old

/-- Write one product field from a JSON value (`setattr`). -/
def setF (p : Product) (f : FieldKey) (v : Value) : Product :=
  match f with
  | .id => { p with id := asInt v p.id }
  | .item_name => { p with item_name := asStr v p.item_name }
  | .category => { p with category := asOptStr v p.category }
  | .description => { p with description := asOptStr v p.description }
  | .imagesrc => { p with imagesrc := asOptStr v p.imagesrc }
  | .price_01 => { p with price_01 := asOptNum v p.price_01 }
  | .price_02 => { p with price_02 := asOptNum v p.price_02 }
  | .price_03 => { p with price_03 := asOptNum v p.price_03 }
  | .price_04 => { p with price_04 := asOptNum v p.price_04 }
  | .packing_01 => { p with packing_01 := asOptStr v p.packing_01 }
  | .packing_02 => { p with packing_02 := asOptStr v p.packing_02 }
  | .packing_03 => { p with packing_03 := asOptStr v p.packing_03 }
  | .packing_04 => { p with packing_04 := asOptStr v p.packing_04 }
  | .shelf_life_days => { p with shelf_life_days := asOptInt v p.shelf_life_days }
  | .lead_time_days => { p with lead_time_days := asOptInt v p.lead_time_days }
  | .is_enabled => { p with is_enabled := asBool v p.is_enabled }

/-- `getattr(product, k)` for a string key: `none` when the attribute is
unknown. -/
def getAttr (p : Product) (k : String) : Option Value :=
  (keyOf k).map (getF p)

/-- `hasattr(product, k)`. -/
def hasAttr (p : Product) (k : String) : Bool :=
  (getAttr p k).isSome

/-- `setattr(product, k, v)`: a write to an unknown attribute never happens
in the handler (it is guarded by `hasattr`); here it is the identity. -/
def setAttr (p : Product) (k : String) (v : Value) : Product :=
  match keyOf k with
  | some f => setF p f v
  | none => p

/-- The patch loop of `update_product`:
`for k, v in product_data.items(): if hasattr(product, k): setattr(...)`. -/
def applyPatch (p : Product) (patch : List (String × Value)) : Product :=
  patch.foldl (fun q e => if hasAttr q e.1 then setAttr q e.1 e.2 else q) p

/-- The `PUT /products/{id}` handler `update_product`: 404 when no product
has the id, otherwise apply the patch to the first matching row. -/
def update_product (product_id : ℤ) (patch : List (String × Value))
    (db : List Product) : Except ApiError String × List Product :=
  match db.find? (fun p => p.id == product_id) with
  | none => (.error (.notFound "Product not found"), db)
  | some _ =>
      (.ok "Product updated",
       updateFirst product_id (fun p => applyPatch p patch) db)

/-- The `DELETE /products/{id}` handler `delete_product`: 404 when no
product has the id, otherwise remove the first matching row. -/
def delete_product (product_id : ℤ) (db : List Product) :
    Except ApiError String × List Product :=
  match db.find? (fun p => p.id == product_id) with
  | none => (.error (.notFound "Product not found"), db)
  | some _ => (.ok "Product deleted", removeFirst product_id db)

/-- The spec's characterization of the derived variant list: exactly the
slots with a non-zero/non-null price, in slot order. -/
def specVariants (p : Product) : List Variant :=
  ((slots p).filter (fun s => decide (s.1 ≠ none ∧ s.1 ≠ some 0))).map
    (fun s => ⟨orEmpty s.2, s.1.getD 0⟩)

theorem truthyNum_iff (o : Option ℚ) :
    truthyNum o = decide (o ≠ none ∧ o ≠ some 0) := by
  cases o with
  | none => simp [truthyNum]
  | some q =>
      by_cases h : q = 0 <;> simp [truthyNum, h]

theorem foldl_append_filter (conv : (Option ℚ × Option String) → Variant) :
    ∀ (l : List (Option ℚ × Option String)) (acc : List Variant),
      l.foldl (fun a s => if truthyNum s.1 then a ++ [conv s] else a) acc
        = acc ++ (l.filter (fun s => truthyNum s.1)).map conv := by
  intro l
  induction l with
  | nil => simp
  | cons s t ih =>
      intro acc
      by_cases h : truthyNum s.1 = true
      · simp [List.foldl_cons, List.filter_cons, h, ih]
      · simp only [Bool.not_eq_true] at h
        simp [List.foldl_cons, List.filter_cons, h, ih]

theorem deriveVariants_eq_specVariants (p : Product) :
    deriveVariants p = specVariants p := by
  unfold deriveVariants specVariants
  rw [foldl_append_filter]
  simp only [List.nil_append]
  congr 1
  apply List.filter_congr
  intro s _
  exact truthyNum_iff s.1

theorem foldl_max_mem : ∀ (xs : List ℚ) (x : ℚ), xs.foldl max x ∈ x :: xs := by
  intro xs
  induction xs with
  | nil => intro x; simp
  | cons y ys ih =>
      intro x
      simp only [List.foldl_cons]
      rcases List.mem_cons.mp (ih (max x y)) with h1 | h1
      · rcases max_choice x y with hm | hm <;> rw [h1, hm] <;> simp
      · simp only [List.mem_cons] at h1 ⊢
        tauto

theorem le_foldl_max :
    ∀ (xs : List ℚ) (x : ℚ), ∀ y ∈ x :: xs, y ≤ xs.foldl max x := by
  intro xs
  induction xs with
  | nil => intro x y hy; simp at hy; simp [hy]
  | cons z zs ih =>
      intro x y hy
      simp only [List.mem_cons] at hy
      rcases hy with rfl | rfl | hy
      · calc y ≤ max y z := le_max_left _ _
          _ ≤ zs.foldl max (max y z) := ih (max y z) _ (by simp)
      · calc y ≤ max x y := le_max_right _ _
          _ ≤ zs.foldl max (max x y) := ih (max x y) _ (by simp)
      · exact ih (max x z) y (by simp [hy])

theorem productView_variants (p : Product) :
    (productView p).variants = deriveVariants p := by
  simp [productView]

theorem productView_max_price (p : Product) :
    (productView p).max_price = pyMax ((deriveVariants p).map (·.price)) := by
  simp [productView]

/-- C1: every product in the products-state listing carries as `variants`
exactly the {packing, price} pairs of the four price/packing slots whose
price is non-zero and non-null, and `max_price` is the maximum of the
variant prices when a variant exists and 0 when there is none. -/
theorem products_state_variants_and_max_price (db : List Product) :
    (∀ p ∈ db, ∃ v ∈ get_all_products_with_status db,
        v.id = p.id ∧ v.variants = specVariants p) ∧
    (∀ v ∈ get_all_products_with_status db,
        (v.variants = [] → v.max_price = 0) ∧
        (v.variants ≠ [] →
          v.max_price ∈ v.variants.map (·.price) ∧
          ∀ w ∈ v.variants, w.price ≤ v.max_price)) := by
  constructor
  · intro p hp
    refine ⟨productView p, List.mem_map_of_mem _ hp, by simp [productView], ?_⟩
    rw [productView_variants]
    exact deriveVariants_eq_specVariants p
  · intro v hv
    rcases List.mem_map.mp hv with ⟨p, _, rfl⟩
    rw [productView_variants, productView_max_price]
    constructor
    · intro h
      simp [h, pyMax]
    · intro h
      have hm : (deriveVariants p).map (·.price) ≠ [] := by
        simpa using h
      rcases hl : (deriveVariants p).map (·.price) with _ | ⟨x, xs⟩
      · exact absurd hl hm
      · rw [hl]
        constructor
        · simpa [pyMax] using foldl_max_mem xs x
        · intro w hw
          have : w.price ∈ x :: xs := by
            rw [← hl]
            exact List.mem_map_of_mem _ hw
          simpa [pyMax] using le_foldl_max xs x w.price this

/-- A sample product with three non-null price slots, one of which is zero. -/
def exProduct : Product :=
  { id := 1
    item_name := "Modak"
    category := some "Sweets"
    description := none
    imagesrc := none
    price_01 := some 5
    price_02 := some 3
    price_03 := none
    price_04 := some 0
    packing_01 := some "250g"
    packing_02 := none
    packing_03 := none
    packing_04 := some "1kg"
    shelf_life_days := none
    lead_time_days := none
    is_enabled := true }

/-- Witness for C1: the sample product has variants, and its `max_price` is
one of — and bounds — the variant prices. -/
theorem products_state_variants_and_max_price_witness :
    (productView exProduct).variants ≠ [] ∧
    ((productView exProduct).max_price ∈
        (productView exProduct).variants.map (·.price) ∧
      ∀ w ∈ (productView exProduct).variants,
        w.price ≤ (productView exProduct).max_price) :=
  ⟨by decide,
   ((products_state_variants_and_max_price [exProduct]).2 (productView exProduct)
      (by decide)).2 (by decide)⟩

/-- Accumulation invariant of the `product_map` fold: every entry's totals
agree with the running per-name totals `f`/`g`, entries have truthy names,
and names without an entry have zero running totals. -/
def AccInv (m : List TPEntry) (f : String → ℤ) (g : String → ℚ) : Prop :=
  (∀ e ∈ m, e.name ≠ "" ∧ e.sales = f e.name ∧ e.revenue = g e.name) ∧
  (∀ n, n ∉ m.map (·.name) → f n = 0 ∧ g n = 0)

theorem AccInv_congr {m : List TPEntry} {f f2 : String → ℤ} {g g2 : String → ℚ}
    (h : AccInv m f g) (hf : ∀ n, f n = f2 n) (hg : ∀ n, g n = g2 n) :
    AccInv m f2 g2 := by
  obtain ⟨h1, h2⟩ := h
  refine ⟨fun e he => ?_, fun n hn => ?_⟩
  · obtain ⟨a, b, c⟩ := h1 e he
    exact ⟨a, b.trans (hf e.name), c.trans (hg e.name)⟩
  · obtain ⟨a, b⟩ := h2 n hn
    exact ⟨(hf n).symm.trans a, (hg n).symm.trans b⟩

theorem truthyName_getD {o : Option String} (h : truthyName o = true) :
    o.getD "" ≠ "" := by
  cases o with
  | none => simp [truthyName] at h
  | some s => simpa [truthyName] using h

theorem name_mem_addItem (m : List TPEntry) (nm n : String) (q : ℤ) (pr : ℚ) :
    n ∈ (addItem m nm q pr).map (·.name) ↔ n ∈ m.map (·.name) ∨ n = nm := by
  unfold addItem
  by_cases hex : m.any (fun e => e.name == nm) = true
  · obtain ⟨e0, he0, hb0⟩ := List.any_eq_true.mp hex
    have hkeep : ∀ e : TPEntry,
        ((if e.name == nm then
            { e with sales := e.sales + q, revenue := e.revenue + q * pr }
          else e) : TPEntry).name = e.name := by
      intro e; split <;> rfl
    simp only [hex, if_true, List.map_map, List.mem_map, Function.comp]
    constructor
    · rintro ⟨e, he, hname⟩
      exact Or.inl ⟨e, he, (hkeep e).symm.trans hname⟩
    · rintro (⟨e, he, hname⟩ | rfl)
      · exact ⟨e, he, (hkeep e).trans hname⟩
      · exact ⟨e0, he0, (hkeep e0).trans (beq_iff_eq.mp hb0)⟩
  · simp only [hex, if_false]
    simp

theorem AccInv_addItem {m : List TPEntry} {f : String → ℤ} {g : String → ℚ}
    (nm : String) (q : ℤ) (pr : ℚ) (hnm : nm ≠ "") (h : AccInv m f g) :
    AccInv (addItem m nm q pr)
      (fun n => f n + if nm = n then q else 0)
      (fun n => g n + if nm = n then (q : ℚ) * pr else 0) := by
  obtain ⟨h1, h2⟩ := h
  constructor
  · intro e2 he2
    unfold addItem at he2
    by_cases hex : m.any (fun e => e.name == nm) = true
    · simp only [hex, if_true] at he2
      obtain ⟨e, he, rfl⟩ := List.mem_map.mp he2
      obtain ⟨ha, hb, hc⟩ := h1 e he
      by_cases hn : (e.name == nm) = true
      · have heq : e.name = nm := beq_iff_eq.mp hn
        simp only [hn, if_true]
        refine ⟨ha, ?_, ?_⟩
        · simp [heq, hb]
        · simp [heq, hc]
      · have hne : ¬ e.name = nm := by simpa using hn
        have hne2 : ¬ nm = e.name := fun hcontra => hne hcontra.symm
        simp only [hn, if_false]
        refine ⟨ha, ?_, ?_⟩
        · simp [hb, hne2]
        · simp [hc, hne2]
    · simp only [hex, if_false] at he2
      rcases List.mem_append.mp he2 with he | he
      · obtain ⟨ha, hb, hc⟩ := h1 e2 he
        have hne : e2.name ≠ nm := fun hcontra =>
          hex (List.any_eq_true.mpr ⟨e2, he, beq_iff_eq.mpr hcontra⟩)
        have hne2 : ¬ nm = e2.name := fun hcontra => hne hcontra.symm
        refine ⟨ha, ?_, ?_⟩
        · simp [hb, hne2]
        · simp [hc, hne2]
      · have he3 : e2 = ⟨nm, q, q * pr⟩ := by simpa using he
        subst he3
        have hnotin : nm ∉ m.map (·.name) := by
          intro hcontra
          obtain ⟨e, he4, he5⟩ := List.mem_map.mp hcontra
          exact hex (List.any_eq_true.mpr ⟨e, he4, beq_iff_eq.mpr he5⟩)
        obtain ⟨a, b⟩ := h2 nm hnotin
        refine ⟨hnm, ?_, ?_⟩
        · simp [a]
        · simp [b]
  · intro n hn2
    rw [name_mem_addItem] at hn2
    push_neg at hn2
    obtain ⟨hn3, hn4⟩ := hn2
    obtain ⟨a, b⟩ := h2 n hn3
    have hn5 : ¬ nm = n := fun hcontra => hn4 hcontra.symm
    constructor
    · simp [a, hn5]
    · simp [b, hn5]

theorem AccInv_processItem {m : List TPEntry} {f : String → ℤ}
    {g : String → ℚ} (it : Item) (h : AccInv m f g) :
    AccInv (processItem m it)
      (fun n => f n + itemSales n it) (fun n => g n + itemRev n it) := by
  unfold processItem
  by_cases ht : truthyName it.name = true
  · simp only [ht, if_true]
    refine AccInv_congr
      (AccInv_addItem (it.name.getD "") (it.quantity.getD 0) (it.price.getD 0)
        (truthyName_getD ht) h) (fun n => ?_) (fun n => ?_)
    · have : itemSales n it = if it.name.getD "" = n then it.quantity.getD 0 else 0 := by
        simp [itemSales, ht]
      rw [this]
    · have : itemRev n it =
          if it.name.getD "" = n then (it.quantity.getD 0 : ℚ) * it.price.getD 0
          else 0 := by
        simp [itemRev, ht]
      rw [this]
  · simp only [ht, if_false]
    refine AccInv_congr h (fun n => ?_) (fun n => ?_)
    · have : itemSales n it = 0 := by simp [itemSales, ht]
      simp [this]
    · have : itemRev n it = 0 := by simp [itemRev, ht]
      simp [this]

theorem AccInv_foldl_items :
    ∀ (its : List Item) (m : List TPEntry) (f : String → ℤ) (g : String → ℚ),
      AccInv m f g →
      AccInv (its.foldl processItem m)
        (fun n => f n + (its.map (itemSales n)).sum)
        (fun n => g n + (its.map (itemRev n)).sum) := by
  intro its
  induction its with
  | nil =>
      intro m f g h
      exact AccInv_congr h (fun n => by simp) (fun n => by simp)
  | cons it rest ih =>
      intro m f g h
      simp only [List.foldl_cons]
      refine AccInv_congr (ih _ _ _ (AccInv_processItem it h))
        (fun n => ?_) (fun n => ?_)
      · simp [add_assoc]
      · simp [add_assoc]

theorem AccInv_processOrder {m : List TPEntry} {f : String → ℤ}
    {g : String → ℚ} (o : ItemsField) (h : AccInv m f g) :
    AccInv (processOrder m o)
      (fun n => f n + ((itemsOf o).map (itemSales n)).sum)
      (fun n => g n + ((itemsOf o).map (itemRev n)).sum) := by
  cases o with
  | jnull => exact AccInv_congr h (fun n => by simp [itemsOf]) (fun n => by simp [itemsOf])
  | text l => exact AccInv_foldl_items l m f g h
  | structured l =>
      by_cases hl : l = []
      · subst hl
        exact AccInv_congr h (fun n => by simp [itemsOf]) (fun n => by simp [itemsOf])
      · show AccInv (if l = [] then m else l.foldl processItem m) _ _
        rw [if_neg hl]
        exact AccInv_foldl_items l m f g h

theorem AccInv_foldl_orders :
    ∀ (orders : List ItemsField) (m : List TPEntry) (f : String → ℤ)
      (g : String → ℚ), AccInv m f g →
      AccInv (orders.foldl processOrder m)
        (fun n => f n + totalSales orders n)
        (fun n => g n + totalRev orders n) := by
  intro orders
  induction orders with
  | nil =>
      intro m f g h
      exact AccInv_congr h (fun n => by simp [totalSales]) (fun n => by simp [totalRev])
  | cons o rest ih =>
      intro m f g h
      simp only [List.foldl_cons]
      refine AccInv_congr (ih _ _ _ (AccInv_processOrder o h))
        (fun n => ?_) (fun n => ?_)
      · simp [totalSales, add_assoc]
      · simp [totalRev, add_assoc]

theorem AccInv_productMap (orders : List ItemsField) :
    AccInv (productMap orders) (totalSales orders) (totalRev orders) := by
  have h0 : AccInv [] (fun _ => 0) (fun _ => 0) := ⟨by simp, by simp⟩
  exact AccInv_congr (AccInv_foldl_orders orders [] _ _ h0)
    (fun n => by simp) (fun n => by simp)

theorem mem_insertDesc {a x : TPEntry} : ∀ {l : List TPEntry},
    a ∈ insertDesc x l ↔ a = x ∨ a ∈ l := by
  intro l
  induction l with
  | nil => simp [insertDesc]
  | cons y ys ih =>
      unfold insertDesc
      by_cases hc : y.sales ≤ x.sales
      · simp only [hc, if_true]
        simp [List.mem_cons]
      · simp only [hc, if_false]
        simp only [List.mem_cons, ih]
        tauto

theorem mem_sortDesc {a : TPEntry} : ∀ {l : List TPEntry},
    a ∈ sortDesc l ↔ a ∈ l := by
  intro l
  induction l with
  | nil => simp [sortDesc]
  | cons y ys ih =>
      unfold sortDesc
      rw [mem_insertDesc]
      simp [ih]

theorem pairwise_insertDesc {x : TPEntry} : ∀ {l : List TPEntry},
    l.Pairwise (fun a b => b.sales ≤ a.sales) →
    (insertDesc x l).Pairwise (fun a b => b.sales ≤ a.sales) := by
  intro l
  induction l with
  | nil => intro _; simp [insertDesc]
  | cons y ys ih =>
      intro h
      rw [List.pairwise_cons] at h
      obtain ⟨hy, hys⟩ := h
      unfold insertDesc
      by_cases hc : y.sales ≤ x.sales
      · simp only [hc, if_true]
        rw [List.pairwise_cons]
        refine ⟨fun b hb => ?_, List.pairwise_cons.mpr ⟨hy, hys⟩⟩
        rcases List.mem_cons.mp hb with rfl | hb2
        · exact hc
        · exact le_trans (hy b hb2) hc
      · simp only [hc, if_false]
        rw [List.pairwise_cons]
        refine ⟨fun b hb => ?_, ih hys⟩
        rcases mem_insertDesc.mp hb with rfl | hb2
        · exact le_of_lt (lt_of_not_le hc)
        · exact hy b hb2

theorem pairwise_sortDesc : ∀ (l : List TPEntry),
    (sortDesc l).Pairwise (fun a b => b.sales ≤ a.sales) := by
  intro l
  induction l with
  | nil => simp [sortDesc]
  | cons y ys ih => exact pairwise_insertDesc ih

theorem processOrder_text_eq_structured (m : List TPEntry) (l : List Item) :
    processOrder m (.text l) = processOrder m (.structured l) := by
  cases l with
  | nil => simp [processOrder]
  | cons it rest => simp [processOrder]

/-- The spec's ranking example: three orders with items A(qty 3, price 2),
A(qty 1, price 2) and B(qty 10, price 1). -/
def exOrders : List ItemsField :=
  [.structured [⟨some "A", some 3, some 2⟩],
   .structured [⟨some "A", some 1, some 2⟩],
   .structured [⟨some "B", some 10, some 1⟩]]

/-- C2: the top-products listing has at most five entries, is sorted by
descending accumulated quantity, every entry carries the total quantity and
the total quantity-times-price revenue accumulated for its (non-empty) name
over all orders with no date filtering, a textual JSON item list is treated
exactly like its structured parse, and on the spec's example B (sales 10)
ranks above A (sales 4, revenue 8). -/
theorem top_products_spec (orders : List ItemsField) :
    (top_products orders).length ≤ 5 ∧
    (top_products orders).Pairwise (fun a b => b.sales ≤ a.sales) ∧
    (∀ e ∈ top_products orders,
        e.name ≠ "" ∧ e.sales = totalSales orders e.name ∧
        e.revenue = totalRev orders e.name) ∧
    (∀ (m : List TPEntry) (l : List Item),
        processOrder m (.text l) = processOrder m (.structured l)) ∧
    top_products exOrders = [⟨"B", 10, 10⟩, ⟨"A", 4, 8⟩] := by
  refine ⟨?_, ?_, ?_, processOrder_text_eq_structured, by
    norm_num [top_products, productMap, processOrder, processItem, addItem,
      truthyName, sortDesc, insertDesc, exOrders]⟩
  · exact List.length_take_le 5 _
  · exact (pairwise_sortDesc (productMap orders)).sublist (List.take_sublist 5 _)
  · intro e he
    have he2 : e ∈ sortDesc (productMap orders) :=
      List.mem_of_mem_take he
    have he3 : e ∈ productMap orders := mem_sortDesc.mp he2
    exact (AccInv_productMap orders).1 e he3

/-- Witness for C2: on the spec's example, the entry for B drawn from the
listing has B's accumulated totals. -/
theorem top_products_spec_witness :
    ("B" : String) ≠ "" ∧
    (10 : ℤ) = totalSales exOrders "B" ∧ (10 : ℚ) = totalRev exOrders "B" :=
  (top_products_spec exOrders).2.2.1 ⟨"B", 10, 10⟩ (by
    norm_num [top_products, productMap, processOrder, processItem, addItem,
      truthyName, sortDesc, insertDesc, exOrders])

/-- C10: the top-products scan is robust to degenerate data: an order with a
NULL or empty items list is skipped (removing it anywhere leaves the output
unchanged), and an item that has a name but no quantity or price key
contributes 0 to that name's sales and revenue instead of failing, as on the
single-item example X with both keys missing, which yields the entry
(X, 0, 0). -/
theorem top_products_degenerate_robust :
    (∀ (pre post : List ItemsField),
        top_products (pre ++ ItemsField.jnull :: post) =
          top_products (pre ++ post)) ∧
    (∀ (pre post : List ItemsField),
        top_products (pre ++ ItemsField.structured [] :: post) =
          top_products (pre ++ post)) ∧
    (∀ n : String,
        itemSales n ⟨some n, none, none⟩ = 0 ∧
        itemRev n ⟨some n, none, none⟩ = 0) ∧
    top_products [ItemsField.structured [⟨some "X", none, none⟩]] =
      [⟨"X", 0, 0⟩] := by
  refine ⟨?_, ?_, ?_, ?_⟩
  · intro pre post
    unfold top_products productMap
    rw [List.foldl_append, List.foldl_cons]
    rw [List.foldl_append]
    rfl
  · intro pre post
    unfold top_products productMap
    rw [List.foldl_append, List.foldl_cons]
    rw [List.foldl_append]
    rfl
  · intro n
    by_cases h : n = ""
    · subst h
      constructor <;> simp [itemSales, itemRev, truthyName]
    · constructor <;> simp [itemSales, itemRev, truthyName, h]
  · norm_num [top_products, productMap, processOrder, processItem, addItem,
      truthyName, sortDesc, insertDesc]

/-- The spec's aggregation over a set of matching orders: revenue as the
sum of the order amounts (a NULL amount contributing nothing), the order
count, and the number of distinct customer mobile numbers. -/
def specSummary (l : List Order) : Summary :=
  { total_revenue := (l.map (fun o => o.total_amount.getD 0)).sum
    total_orders := l.length
    total_customers := ((l.filterMap (·.mobile_number)).dedup).length }

theorem sum_filterMap_id (l : List (Option ℚ)) :
    (l.filterMap id).sum = (l.map (fun x => x.getD 0)).sum := by
  induction l with
  | nil => simp
  | cons o t ih => cases o <;> simp [ih]

theorem orZero_sqlSum (l : List (Option ℚ)) :
    orZero (sqlSum l) = (l.map (fun x => x.getD 0)).sum := by
  rw [← sum_filterMap_id]
  unfold sqlSum orZero
  by_cases h : (l.filterMap id).isEmpty
  · simp only [h, if_true]
    rw [List.isEmpty_iff] at h
    simp [h]
  · simp [h]

theorem dashboard_summary_eq_spec (period : String) (now : ℤ)
    (db : List Order) :
    dashboard_summary period now db =
      specSummary (db.filter (fun o => periodCutoff period now ≤ o.created_at)) := by
  unfold dashboard_summary specSummary
  dsimp only
  rw [Summary.mk.injEq]
  refine ⟨?_, rfl, rfl⟩
  rw [orZero_sqlSum, List.map_map]
  rfl

/-- C3: the weekly summary aggregates exactly the orders created on or
after seven days before the call time, the yearly summary those on or after
365 days before, and any other period (monthly included) those on or after
30 days before; over that set it reports the revenue sum, the order count
and the distinct-mobile-number count, and an order created exactly eight
days ago is excluded from the weekly summary. -/
theorem dashboard_summary_spec (now : ℤ) (db : List Order) :
    dashboard_summary "weekly" now db =
      specSummary (db.filter (fun o => now - 7 * 86400 ≤ o.created_at)) ∧
    dashboard_summary "yearly" now db =
      specSummary (db.filter (fun o => now - 365 * 86400 ≤ o.created_at)) ∧
    (∀ period : String, period ≠ "weekly" → period ≠ "yearly" →
      dashboard_summary period now db =
        specSummary (db.filter (fun o => now - 30 * 86400 ≤ o.created_at))) ∧
    (∀ o : Order, o.created_at = now - 8 * 86400 →
      dashboard_summary "weekly" now (o :: db) =
        dashboard_summary "weekly" now db) := by
  refine ⟨?_, ?_, ?_, ?_⟩
  · rw [dashboard_summary_eq_spec]
    simp [periodCutoff]
  · rw [dashboard_summary_eq_spec]
    simp [periodCutoff]
  · intro period h1 h2
    rw [dashboard_summary_eq_spec]
    simp [periodCutoff, h1, h2]
  · intro o ho
    rw [dashboard_summary_eq_spec, dashboard_summary_eq_spec]
    rw [List.filter_cons]
    have hx : ¬ (periodCutoff "weekly" now ≤ o.created_at) := by
      rw [ho]
      simp [periodCutoff]
      omega
    simp [hx]

/-- Witness for C3: for the period string "monthly" and an order created
eight days before the call, the other-period and weekly-exclusion parts
hold at a concrete database. -/
theorem dashboard_summary_spec_witness :
    dashboard_summary "monthly" 0 [] =
      specSummary (List.filter (fun o => decide (0 - 30 * 86400 ≤ o.created_at)) []) ∧
    dashboard_summary "weekly" 0
        [{ id := 1, created_at := 0 - 8 * 86400, total_amount := some 5,
           mobile_number := some "1", items := ItemsField.jnull }] =
      dashboard_summary "weekly" 0 [] :=
  ⟨(dashboard_summary_spec 0 []).2.2.1 "monthly" (by decide) (by decide),
   (dashboard_summary_spec 0 []).2.2.2
     { id := 1, created_at := 0 - 8 * 86400, total_amount := some 5,
       mobile_number := some "1", items := ItemsField.jnull } rfl⟩

theorem rlabelLe_total (a b : RLabel) :
    rlabelLe a b = true ∨ rlabelLe b a = true := by
  cases a <;> cases b <;> simp [rlabelLe] <;> omega

theorem rlabelLe_trans {a b c : RLabel} (h1 : rlabelLe a b = true)
    (h2 : rlabelLe b c = true) : rlabelLe a c = true := by
  cases a <;> cases b <;> cases c <;> simp_all [rlabelLe] <;> omega

theorem mem_insertAsc {a x : RLabel} : ∀ {l : List RLabel},
    a ∈ insertAsc x l ↔ a = x ∨ a ∈ l := by
  intro l
  induction l with
  | nil => simp [insertAsc]
  | cons y ys ih =>
      unfold insertAsc
      by_cases hc : rlabelLe x y = true
      · rw [if_pos hc]
        simp [List.mem_cons]
      · rw [if_neg hc]
        simp only [List.mem_cons, ih]
        tauto

theorem pairwise_insertAsc {x : RLabel} : ∀ {l : List RLabel},
    l.Pairwise (fun a b => rlabelLe a b = true) →
    (insertAsc x l).Pairwise (fun a b => rlabelLe a b = true) := by
  intro l
  induction l with
  | nil => intro _; simp [insertAsc]
  | cons y ys ih =>
      intro h
      rw [List.pairwise_cons] at h
      obtain ⟨hy, hys⟩ := h
      unfold insertAsc
      by_cases hc : rlabelLe x y = true
      · rw [if_pos hc]
        rw [List.pairwise_cons]
        refine ⟨fun b hb => ?_, List.pairwise_cons.mpr ⟨hy, hys⟩⟩
        rcases List.mem_cons.mp hb with rfl | hb2
        · exact hc
        · exact rlabelLe_trans hc (hy b hb2)
      · rw [if_neg hc]
        rw [List.pairwise_cons]
        refine ⟨fun b hb => ?_, ih hys⟩
        rcases mem_insertAsc.mp hb with rfl | hb2
        · rcases rlabelLe_total y b with h | h
          · exact h
          · exact absurd h hc
        · exact hy b hb2

theorem pairwise_sortAsc : ∀ (l : List RLabel),
    (sortAsc l).Pairwise (fun a b => rlabelLe a b = true) := by
  intro l
  induction l with
  | nil => simp [sortAsc]
  | cons y ys ih => exact pairwise_insertAsc ih

theorem mem_sortAsc {a : RLabel} : ∀ {l : List RLabel},
    a ∈ sortAsc l ↔ a ∈ l := by
  intro l
  induction l with
  | nil => simp [sortAsc]
  | cons y ys ih =>
      unfold sortAsc
      rw [mem_insertAsc]
      simp [ih]

theorem mem_revLabels {period : String} {db : List Order} {l : RLabel} :
    l ∈ revLabels period db ↔
      ∃ o ∈ db, labelOf period o.created_at = l := by
  unfold revLabels
  rw [mem_sortAsc, List.mem_dedup, List.mem_map]

/-- C4: the revenue time series covers every order with no date filter,
groups by the period label (calendar date for weekly, calendar year for
yearly, year-month otherwise), sums each group's `total_amount` with a null
sum coerced to 0, and lists the groups in ascending label order. -/
theorem dashboard_revenue_spec (period : String) (db : List Order) :
    dashboard_revenue period db =
      (revLabels period db).map (fun l =>
        { name := rlabelStr l
          revenue := ((db.filter
              (fun o => labelOf period o.created_at = l)).map
            (fun o => o.total_amount.getD 0)).sum }) ∧
    (∀ o ∈ db, ∃ e ∈ dashboard_revenue period db,
        e.name = rlabelStr (labelOf period o.created_at)) ∧
    (∀ l, l ∈ revLabels period db ↔
        ∃ o ∈ db, labelOf period o.created_at = l) ∧
    (revLabels period db).Pairwise (fun a b => rlabelLe a b = true) ∧
    (∀ t, labelOf "weekly" t =
        RLabel.date (civilOf t).1 (civilOf t).2.1 (civilOf t).2.2) ∧
    (∀ t, labelOf "yearly" t = RLabel.year (civilOf t).1) ∧
    (∀ (p : String) (t : ℤ), p ≠ "weekly" → p ≠ "yearly" →
        labelOf p t = RLabel.ym (civilOf t).1 (civilOf t).2.1) ∧
    (∀ o : Order, o.total_amount = none →
        dashboard_revenue period [o] =
          [{ name := rlabelStr (labelOf period o.created_at),
             revenue := 0 }]) := by
  refine ⟨?_, ?_, fun l => mem_revLabels, pairwise_sortAsc _, ?_, ?_, ?_, ?_⟩
  · unfold dashboard_revenue
    apply List.map_congr_left
    intro l _
    rw [RevPoint.mk.injEq]
    refine ⟨rfl, ?_⟩
    rw [orZero_sqlSum, List.map_map]
    rfl
  · intro o ho
    have hl : labelOf period o.created_at ∈ revLabels period db :=
      mem_revLabels.mpr ⟨o, ho, rfl⟩
    exact ⟨_, List.mem_map_of_mem _ hl, rfl⟩
  · intro t; simp [labelOf]
  · intro t; simp [labelOf]
  · intro p t h1 h2; simp [labelOf, h1, h2]
  · intro o h
    simp [dashboard_revenue, revLabels, sortAsc, insertAsc, sqlSum, orZero, h]

/-- A sample order with a NULL total amount. -/
def exNullOrder : Order :=
  { id := 1, created_at := 0, total_amount := none,
    mobile_number := none, items := ItemsField.jnull }

/-- Witness for C4: the monthly label of the epoch and the null-amount
coercion at a concrete order. -/
theorem dashboard_revenue_spec_witness :
    labelOf "monthly" 0 = RLabel.ym (civilOf 0).1 (civilOf 0).2.1 ∧
    dashboard_revenue "monthly" [exNullOrder] =
      [{ name := rlabelStr (labelOf "monthly" exNullOrder.created_at),
         revenue := 0 }] :=
  ⟨(dashboard_revenue_spec "monthly" []).2.2.2.2.2.2.1 "monthly" 0
      (by decide) (by decide),
   (dashboard_revenue_spec "monthly" []).2.2.2.2.2.2.2 exNullOrder rfl⟩

/-- C6: the bulk toggle reports the total number of products, keeps the
listing length, and rewrites each product in place with its enabled flag
set to the selected boolean and every other field unchanged; so with action
"1" every product ends up enabled and with action "0" every product ends up
disabled. -/
theorem toggle_all_products_spec (action : String) (db : List Product) :
    (toggle_all_products action db).1 = db.length ∧
    (toggle_all_products action db).2.length = db.length ∧
    (∀ i : ℕ, (toggle_all_products action db).2[i]? =
        (db[i]?).map (fun p => { p with is_enabled := action = "1" })) ∧
    (action = "1" →
      ∀ p ∈ (toggle_all_products action db).2, p.is_enabled = true) ∧
    (action = "0" →
      ∀ p ∈ (toggle_all_products action db).2, p.is_enabled = false) := by
  refine ⟨rfl, by simp [toggle_all_products], ?_, ?_, ?_⟩
  · intro i
    simp [toggle_all_products, List.getElem?_map]
  · intro h p hp
    subst h
    obtain ⟨q, _, rfl⟩ := List.mem_map.mp hp
    simp
  · intro h p hp
    subst h
    obtain ⟨q, _, rfl⟩ := List.mem_map.mp hp
    simp

/-- Witness for C6: toggling all products on with a one-product database
leaves that product enabled. -/
theorem toggle_all_products_spec_witness :
    ({ exProduct with is_enabled := true } : Product).is_enabled = true :=
  (toggle_all_products_spec "1" [exProduct]).2.2.2.1 rfl
    { exProduct with is_enabled := true } (by decide)

theorem find?_updateFirst (pid : ℤ) (f : Product → Product)
    (hid : ∀ q, (f q).id = q.id) :
    ∀ (db : List Product) (p : Product),
      db.find? (fun q => q.id == pid) = some p →
      (updateFirst pid f db).find? (fun q => q.id == pid) = some (f p) := by
  intro db
  induction db with
  | nil => intro p h; simp at h
  | cons r rs ih =>
      intro p h
      by_cases hr : r.id = pid
      · rw [List.find?_cons_of_pos _ (by simpa using hr)] at h
        injection h with h
        subst h
        unfold updateFirst
        rw [if_pos hr]
        rw [List.find?_cons_of_pos _ (by simp [hid, hr])]
      · rw [List.find?_cons_of_neg _ (by simpa using hr)] at h
        unfold updateFirst
        rw [if_neg hr]
        rw [List.find?_cons_of_neg _ (by simpa using hr)]
        exact ih p h

theorem updateFirst_cons (pid : ℤ) (f : Product → Product) (r : Product)
    (rs : List Product) :
    updateFirst pid f (r :: rs) =
      if r.id = pid then f r :: rs else r :: updateFirst pid f rs := rfl

theorem updateFirst_flip_flip (pid : ℤ) :
    ∀ db : List Product,
      updateFirst pid (fun q => { q with is_enabled := !q.is_enabled })
        (updateFirst pid (fun q => { q with is_enabled := !q.is_enabled }) db) =
        db := by
  intro db
  induction db with
  | nil => rfl
  | cons r rs ih =>
      rw [updateFirst_cons]
      by_cases hr : r.id = pid
      · rw [if_pos hr, updateFirst_cons, if_pos hr]
        simp
      · rw [if_neg hr, updateFirst_cons, if_neg hr, ih]

/-- C7: toggling an absent product id fails with NotFound; toggling an
existing product returns its id with the flipped flag, and toggling it a
second time returns the original flag value and restores the database to
its original state. -/
theorem toggle_product_status_spec (pid : ℤ) (db : List Product) :
    ((∀ p ∈ db, p.id ≠ pid) →
      toggle_product_status pid db =
        (.error (.notFound "Product not found"), db)) ∧
    (∀ p : Product, db.find? (fun q => q.id == pid) = some p →
      (toggle_product_status pid db).1 =
        .ok { product_id := p.id, new_status := !p.is_enabled } ∧
      toggle_product_status pid (toggle_product_status pid db).2 =
        (.ok { product_id := p.id, new_status := p.is_enabled }, db)) := by
  constructor
  · intro h
    have hn : db.find? (fun q => q.id == pid) = none := by
      rw [List.find?_eq_none]
      intro p hp
      simpa using h p hp
    unfold toggle_product_status
    rw [hn]
  · intro p hp
    constructor
    · unfold toggle_product_status
      rw [hp]
    · have h2 : (toggle_product_status pid db).2 =
          updateFirst pid (fun q => { q with is_enabled := !q.is_enabled }) db := by
        unfold toggle_product_status
        rw [hp]
      rw [h2]
      have h3 := find?_updateFirst pid
        (fun q => { q with is_enabled := !q.is_enabled }) (fun q => rfl) db p hp
      unfold toggle_product_status
      rw [h3]
      rw [updateFirst_flip_flip]
      simp

/-- Witness for C7: toggling the sample product twice returns the flag to
its original value and the database to its original state. -/
theorem toggle_product_status_spec_witness :
    (toggle_product_status 1 [exProduct]).1 =
      .ok { product_id := exProduct.id, new_status := !exProduct.is_enabled } ∧
    toggle_product_status 1 (toggle_product_status 1 [exProduct]).2 =
      (.ok { product_id := exProduct.id, new_status := exProduct.is_enabled },
       [exProduct]) :=
  (toggle_product_status_spec 1 [exProduct]).2 exProduct (by decide)

theorem find?_append_cons (pid : ℤ) :
    ∀ (l1 : List Product) (p : Product) (l2 : List Product),
      (∀ q ∈ l1, q.id ≠ pid) → p.id = pid →
      (l1 ++ p :: l2).find? (fun q => q.id == pid) = some p := by
  intro l1
  induction l1 with
  | nil =>
      intro p l2 _ hp
      show (p :: l2).find? (fun q => q.id == pid) = some p
      exact List.find?_cons_of_pos l2 (by simpa using hp)
  | cons r rs ih =>
      intro p l2 h hp
      rw [List.cons_append,
        List.find?_cons_of_neg _ (by simpa using h r (by simp))]
      exact ih p l2 (fun q hq => h q (by simp [hq])) hp

theorem removeFirst_append_cons (pid : ℤ) :
    ∀ (l1 : List Product) (p : Product) (l2 : List Product),
      (∀ q ∈ l1, q.id ≠ pid) → p.id = pid →
      removeFirst pid (l1 ++ p :: l2) = l1 ++ l2 := by
  intro l1
  induction l1 with
  | nil =>
      intro p l2 _ hp
      show removeFirst pid (p :: l2) = l2
      unfold removeFirst
      rw [if_pos hp]
  | cons r rs ih =>
      intro p l2 h hp
      rw [List.cons_append]
      show (if r.id = pid then rs ++ p :: l2
        else r :: removeFirst pid (rs ++ p :: l2)) = r :: (rs ++ l2)
      rw [if_neg (h r (by simp))]
      rw [ih p l2 (fun q hq => h q (by simp [hq])) hp]

/-- C9: deleting a product id with no matching record fails with NotFound
and leaves the database unchanged; deleting an existing id removes exactly
the first record carrying that id and succeeds. -/
theorem delete_product_spec (pid : ℤ) (db : List Product) :
    ((∀ p ∈ db, p.id ≠ pid) →
      delete_product pid db = (.error (.notFound "Product not found"), db)) ∧
    (∀ (l1 : List Product) (p : Product) (l2 : List Product),
      db = l1 ++ p :: l2 → (∀ q ∈ l1, q.id ≠ pid) → p.id = pid →
      delete_product pid db = (.ok "Product deleted", l1 ++ l2)) := by
  constructor
  · intro h
    have hn : db.find? (fun q => q.id == pid) = none := by
      rw [List.find?_eq_none]
      intro p hp
      simpa using h p hp
    unfold delete_product
    rw [hn]
  · intro l1 p l2 hdb h1 hp
    subst hdb
    unfold delete_product
    rw [find?_append_cons pid l1 p l2 h1 hp]
    rw [removeFirst_append_cons pid l1 p l2 h1 hp]

/-- Witness for C9: deleting id 2 from a database holding only the sample
product (id 1) reports NotFound and leaves the row in place, and deleting
id 1 removes the only row. -/
theorem delete_product_spec_witness :
    delete_product 2 [exProduct] =
      (.error (.notFound "Product not found"), [exProduct]) ∧
    delete_product 1 [exProduct] = (.ok "Product deleted", []) :=
  ⟨(delete_product_spec 2 [exProduct]).1 (by decide),
   (delete_product_spec 1 [exProduct]).2 [] exProduct [] rfl
     (by simp) rfl⟩

/-- C8: product creation either succeeds, appending exactly one new product
built from the payload with its enabled flag set and returning its
identifier, or fails with an opaque Internal error while the rollback
leaves the database exactly as it was. -/
theorem add_product_spec (pc : ProductsCreate) (newId : ℤ)
    (db : List Product) :
    add_product pc newId true db = (.ok newId, db ++ [mkProduct pc newId]) ∧
    (mkProduct pc newId).is_enabled = true ∧
    (mkProduct pc newId).id = newId ∧
    (mkProduct pc newId).item_name = pc.item_name ∧
    (add_product pc newId true db).2.length = db.length + 1 ∧
    add_product pc newId false db =
      (.error (.internal "Failed to add product"), db) := by
  refine ⟨rfl, rfl, rfl, rfl, ?_, rfl⟩
  simp [add_product]

theorem hasAttr_eq (p : Product) (k : String) :
    hasAttr p k = (keyOf k).isSome := by
  unfold hasAttr getAttr
  cases keyOf k <;> simp

theorem keyOf_fieldName {k : String} {f : FieldKey} (h : keyOf k = some f) :
    fieldName f = k := by
  have h2 := List.find?_some h
  exact beq_iff_eq.mp h2

theorem setAttr_unknown (p : Product) (k : String) (v : Value)
    (h : hasAttr p k = false) : setAttr p k v = p := by
  unfold setAttr
  rw [hasAttr_eq] at h
  cases h2 : keyOf k with
  | none => rfl
  | some f => rw [h2] at h; simp at h

theorem getF_setF_ne (p : Product) (v : Value) (fset fget : FieldKey)
    (h : fset ≠ fget) : getF (setF p fset v) fget = getF p fget := by
  cases fset <;> cases fget <;> first | exact absurd rfl h | rfl

theorem applyPatch_filter_keys :
    ∀ (patch : List (String × Value)) (p : Product),
      applyPatch p patch =
        applyPatch p (patch.filter (fun e => (keyOf e.1).isSome)) := by
  intro patch
  induction patch with
  | nil => intro p; rfl
  | cons e rest ih =>
      intro p
      by_cases h : (keyOf e.1).isSome = true
      · rw [List.filter_cons_of_pos (by simpa using h)]
        show applyPatch (if hasAttr p e.1 then setAttr p e.1 e.2 else p) rest =
          applyPatch (if hasAttr p e.1 then setAttr p e.1 e.2 else p)
            (rest.filter (fun e => (keyOf e.1).isSome))
        exact ih _
      · rw [List.filter_cons_of_neg (by simpa using h)]
        have ha : hasAttr p e.1 = false := by
          rw [hasAttr_eq]; simpa using h
        show applyPatch (if hasAttr p e.1 then setAttr p e.1 e.2 else p) rest =
          applyPatch p (rest.filter (fun e => (keyOf e.1).isSome))
        rw [if_neg (by simp [ha])]
        exact ih p

theorem getF_applyPatch_frame :
    ∀ (patch : List (String × Value)) (p : Product) (f : FieldKey),
      (∀ e ∈ patch, e.1 ≠ fieldName f) →
      getF (applyPatch p patch) f = getF p f := by
  intro patch
  induction patch with
  | nil => intro p f _; rfl
  | cons e rest ih =>
      intro p f h
      have he : e.1 ≠ fieldName f := h e (by simp)
      show getF
        (applyPatch (if hasAttr p e.1 then setAttr p e.1 e.2 else p) rest) f =
        getF p f
      rw [ih _ f (fun e2 he2 => h e2 (by simp [he2]))]
      by_cases ha : hasAttr p e.1 = true
      · rw [if_pos ha]
        unfold setAttr
        cases hk : keyOf e.1 with
        | none => rfl
        | some f2 =>
            have hne : f2 ≠ f := by
              intro hcontra
              subst hcontra
              exact he (keyOf_fieldName hk).symm
            exact getF_setF_ne p e.2 f2 f hne
      · rw [if_neg ha]

/-- C5: updating an existing product applies only the patch entries whose
keys are known product attributes: the call succeeds for any patch, a write
to an unknown key is a no-op, dropping the unknown-key entries from the
patch gives the same result, and every known attribute not named by the
patch keeps its value. An absent product id fails with NotFound. -/
theorem update_product_spec (pid : ℤ) (patch : List (String × Value))
    (db : List Product) :
    ((∀ p ∈ db, p.id ≠ pid) →
      update_product pid patch db =
        (.error (.notFound "Product not found"), db)) ∧
    ((∃ p ∈ db, p.id = pid) →
      (update_product pid patch db).1 = .ok "Product updated") ∧
    (∀ (p : Product) (k : String) (v : Value),
      hasAttr p k = false → setAttr p k v = p) ∧
    (∀ p : Product,
      applyPatch p patch =
        applyPatch p (patch.filter (fun e => hasAttr p e.1))) ∧
    (∀ (p : Product) (f : FieldKey),
      (∀ e ∈ patch, e.1 ≠ fieldName f) →
      getF (applyPatch p patch) f = getF p f) := by
  refine ⟨?_, ?_, setAttr_unknown, ?_, fun p f h => getF_applyPatch_frame patch p f h⟩
  · intro h
    have hn : db.find? (fun q => q.id == pid) = none := by
      rw [List.find?_eq_none]
      intro p hp
      simpa using h p hp
    unfold update_product
    rw [hn]
  · rintro ⟨p, hp, hid⟩
    have hs : (db.find? (fun q => q.id == pid)).isSome :=
      List.find?_isSome.mpr ⟨p, hp, by simpa using hid⟩
    obtain ⟨r, hr⟩ := Option.isSome_iff_exists.mp hs
    unfold update_product
    rw [hr]
  · intro p
    rw [applyPatch_filter_keys]
    congr 1
    apply List.filter_congr
    intro e _
    rw [hasAttr_eq]

/-- Witness for C5: patching the sample product with only an unknown key
succeeds and leaves the display name untouched. -/
theorem update_product_spec_witness :
    (update_product 1 [("bogus", Value.vint 7)] [exProduct]).1 =
      .ok "Product updated" ∧
    getF (applyPatch exProduct [("bogus", Value.vint 7)])
        FieldKey.item_name = getF exProduct FieldKey.item_name :=
  ⟨(update_product_spec 1 [("bogus", Value.vint 7)] [exProduct]).2.1
      ⟨exProduct, by simp, rfl⟩,
   (update_product_spec 1 [("bogus", Value.vint 7)] [exProduct]).2.2.2.2
      exProduct FieldKey.item_name (by decide)⟩
